import Mathlib

/-!
Verification of the partitioned property-graph store with vector search
(crate robert-graph, file src/surreal_store.rs) against its specification.

The adapter code in surreal_store.rs is embedded directly.  The backing
database engine (SurrealDB) is an external collaborator that is not part of
this repository; its keyed create/read/update, relation listing, batched
fetch and cosine-similarity query facilities are modelled from the
specification (sections 4 and 6) as an explicit state.  Definitions whose
doc comment starts with "Modelled from the spec:" are of that kind.
-/

namespace RobertGraph

/-- JSON-like property values (serde_json::Value in the source).  The claims
only carry property values through unchanged, so the exact constructor set is
irrelevant beyond giving an honest open value space. -/
inductive Json where
  | null : Json
  | bool (b : Bool) : Json
  | num (q : ℚ) : Json
  | str (s : String) : Json
  | arr (xs : List Json) : Json
  | obj (kvs : List (String × Json)) : Json

/-- Modelled from the spec: the Node record of the data model (the defining
declaration lives in the crate root, which is not among the provided source
files; its shape is fixed by section 3 of the spec and by every use in
surreal_store.rs and the integration tests). -/
structure Node where
  id : String
  label : String
  properties : Json
  partition_id : String

/-- Modelled from the spec: the Edge record of the data model (section 3;
shape fixed by its uses in surreal_store.rs). -/
structure Edge where
  source : String
  target : String
  relation : String
  weight : ℚ
  partition_id : String

/-- Modelled from the spec: the error taxonomy of section 7 (Storage with a
message, NotFound with the requested id). -/
inductive GraphError where
  | Storage (msg : String) : GraphError
  | NotFound (id : String) : GraphError
deriving DecidableEq

/-- surrealdb::sql::Thing: a record identifier made of a table part and a
key part.  Converting the key part to a string yields the bare key. -/
structure Thing where
  tb : String
  id : String
deriving DecidableEq

/-- A raw node record as stored by the engine.  Every writer in this
repository stores label and properties, so only the two fields whose absence
is observable in the claims (partition_id, embedding) are optional. -/
structure RawNode where
  key : String
  label : String
  properties : Json
  partition_id : Option String
  embedding : Option (List ℚ)

/-- A raw relation record as stored by the engine: its table part names the
relation type, and it carries endpoints plus optional weight and partition. -/
structure RawEdge where
  tb : String
  key : String
  src : String
  tgt : String
  weight : Option ℚ
  partition_id : Option String

/-- Modelled from the spec: the state of the external embedded engine
(section 6): keyed node records plus directed typed relation records. -/
structure EngineState where
  nodes : List RawNode
  edges : List RawEdge

/-- The serialized payload written by add_node and update_node (struct
NodeContent in the source): label, properties and partition only. -/
structure NodeContent where
  label : String
  properties : Json
  partition_id : String

/-- The deserialized node shape (struct SurrealNode in the source):
id is a Thing and partition_id is a required String with no serde default. -/
structure SurrealNode where
  id : Thing
  label : String
  properties : Json
  partition_id : String

/-- Deserializing a raw engine record into SurrealNode.  partition_id is a
required field without a default in the source, so a record that omits it
fails to deserialize. -/
def deserNode (r : RawNode) : Option SurrealNode :=
  match r.partition_id with
  | none => none
  | some p => some ⟨⟨"node", r.key⟩, r.label, r.properties, p⟩

/-- The From SurrealNode for Node conversion in the source: the table part
of the Thing is dropped and only the bare key becomes the node id. -/
def nodeFromSurreal (sn : SurrealNode) : Node :=
  ⟨sn.id.id, sn.label, sn.properties, sn.partition_id⟩

/-- Modelled from the spec: keyed lookup of a node record (section 6 (a)). -/
def engineSelectNode (st : EngineState) (key : String) : Option RawNode :=
  st.nodes.find? (fun r => r.key == key)

/-- Replace the record at the given key with fresh content, or append a new
record.  A content write replaces the whole record, so any previously stored
embedding is dropped. -/
def upsertRec (key : String) (c : NodeContent) : List RawNode → List RawNode
  | [] => [⟨key, c.label, c.properties, some c.partition_id, none⟩]
  | r :: rs =>
      if r.key == key then ⟨key, c.label, c.properties, some c.partition_id, none⟩ :: rs
      else r :: upsertRec key c rs

/-- Modelled from the spec: the engine create used by add_node.  Section 4.1
specifies create-or-overwrite at the key with no uniqueness error, and
section 6 (a) only requires keyed record create/read/update. -/
def engineCreateNode (st : EngineState) (key : String) (c : NodeContent) : EngineState :=
  ⟨upsertRec key c st.nodes, st.edges⟩

/-- Modelled from the spec: the engine update used by update_node — a full
content replace at the key (sections 3 and 4.1). -/
def engineUpdateNode (st : EngineState) (key : String) (c : NodeContent) : EngineState :=
  ⟨upsertRec key c st.nodes, st.edges⟩

/-- add_node from the source: build NodeContent from the node and issue an
engine create at ("node", node.id). -/
def addNode (st : EngineState) (n : Node) : EngineState × Except GraphError Unit :=
  (engineCreateNode st n.id ⟨n.label, n.properties, n.partition_id⟩, .ok ())

/-- update_node from the source: build NodeContent from the node and issue an
engine update at ("node", node.id). -/
def updateNode (st : EngineState) (n : Node) : EngineState × Except GraphError Unit :=
  (engineUpdateNode st n.id ⟨n.label, n.properties, n.partition_id⟩, .ok ())

/-- get_node from the source: keyed select, Storage error when a present
record fails to deserialize, NotFound carrying the requested id when no
record exists, otherwise the converted node. -/
def getNode (st : EngineState) (id : String) : Except GraphError Node :=
  match engineSelectNode st id with
  | none => .error (.NotFound id)
  | some r =>
      match deserNode r with
      | none => .error (.Storage "missing field partition_id")
      | some sn => .ok (nodeFromSurreal sn)

theorem upsertRec_find (key : String) (c : NodeContent) (l : List RawNode) :
    (upsertRec key c l).find? (fun r => r.key == key) =
      some ⟨key, c.label, c.properties, some c.partition_id, none⟩ := by
  induction l with
  | nil => simp [upsertRec, List.find?]
  | cons r rs ih =>
      by_cases h : r.key = key
      · simp [upsertRec, h, List.find?]
      · have hb : (r.key == key) = false := by simp [h]
        simp [upsertRec, hb, List.find?, ih]

/-- The request add_edge hands to the engine when validation passes: the
query text with source, relation and target interpolated verbatim, plus the
bound weight and partition parameters. -/
structure AddEdgeReq where
  sql : String
  weight : ℚ
  partition : String
deriving DecidableEq

/-- add_edge from the source, parameterized by the alphanumeric character
test: validate that every character of the relation passes the test or is an
underscore, fail with a Storage error naming the relation otherwise, and on
success build the RELATE query by string interpolation.  The source applies
Rust char::is_alphanumeric; its full Unicode tables are not embedded, so
claims about the validation outcome quantify over every predicate that
agrees with it on the ASCII range (ModelsRustAlphanumeric) instead of
committing to one total predicate. -/
def addEdgeWith (isAlnum : Char → Bool) (e : Edge) : Except GraphError AddEdgeReq :=
  if e.relation.data.all (fun c => isAlnum c || c == '_') then
    .ok ⟨"RELATE node:" ++ e.source ++ "->" ++ e.relation ++ "->node:" ++ e.target
          ++ " SET weight = $weight, partition_id = $partition",
         e.weight, e.partition_id⟩
  else
    .error (.Storage ("Invalid relation name: " ++ e.relation))

/-- The ASCII restriction of Rust char::is_alphanumeric, on which the two
functions provably coincide ([A-Za-z0-9]).  Rust additionally accepts
non-ASCII Unicode letters and numbers, so theorems about the validation
outcome never apply this fragment outside ASCII strings. -/
def charIsAlnumAscii (c : Char) : Bool :=
  c.isAlphanum

/-- A character predicate models Rust char::is_alphanumeric when it agrees
with the ASCII class [A-Za-z0-9] below code point 128; its behaviour on
higher code points is unconstrained, exactly matching what is known of the
source predicate without its Unicode tables. -/
def ModelsRustAlphanumeric (f : Char → Bool) : Prop :=
  ∀ c : Char, c.toNat < 128 → f c = c.isAlphanum

/-- The spec regex for relation names, written from the words of the spec
(section 3 invariant): one or more characters from [A-Za-z0-9_].  This is
the specification-side definition compared against the code-side check. -/
def matchesSpecRelationRegexPlus (s : String) : Bool :=
  (!s.data.isEmpty) && s.data.all (fun c => c.isAlphanum || c == '_')

/-- The star variant of the spec regex: zero or more characters from
[A-Za-z0-9_].  This is the amended specification-side predicate. -/
def matchesSpecRelationRegexStar (s : String) : Bool :=
  s.data.all (fun c => c.isAlphanum || c == '_')

/-- add_edge at the ASCII fragment of the character test; faithful to the
source wherever the relation is ASCII, and used only by statements that are
insensitive to the character class (the validation-outcome claim is settled
over every ModelsRustAlphanumeric predicate through addEdgeWith). -/
def addEdge (e : Edge) : Except GraphError AddEdgeReq :=
  addEdgeWith charIsAlnumAscii e

/-- The deserialized relation record shape used inside get_neighbors
(struct RelationRecord in the source): own id, endpoints, optional weight
and optional partition. -/
structure RelationRecord where
  id : Thing
  source : Thing
  target : Thing
  weight : Option ℚ
  partition_id : Option String

/-- Modelled from the spec: the first get_neighbors query (SELECT outgoing
relations FROM the node), returning no row when the node record is absent
and otherwise the outgoing relation identifiers grouped by relation type
(section 4.1 step 1; the grouped structure is dynamically keyed and is
iterated without relying on key order). -/
def relationMapQ (st : EngineState) (id : String) : Option (List (String × List Thing)) :=
  if (st.nodes.find? (fun r => r.key == id)).isSome then
    let out := st.edges.filter (fun e => e.src == id)
    let keys := (out.map (fun e => e.tb)).dedup
    some (keys.map (fun k => (k, (out.filter (fun e => e.tb == k)).map (fun e => ⟨e.tb, e.key⟩))))
  else none

/-- The flattened list of outgoing relation identifiers obtained from the
initial listing query (the loop over the dynamically keyed map). -/
def listedThings (st : EngineState) (id : String) : List Thing :=
  match relationMapQ st id with
  | none => []
  | some m => (m.map Prod.snd).flatten

/-- Modelled from the spec: the second get_neighbors query (single batched
fetch of all relation records by identifier, section 4.1 step 3).  Records
no longer present are simply absent from the response. -/
def engineFetchRelations (st : EngineState) (ts : List Thing) : List RelationRecord :=
  ts.filterMap (fun t =>
    (st.edges.find? (fun e => e.tb == t.tb && e.key == t.id)).map
      (fun e => ⟨⟨e.tb, e.key⟩, ⟨"node", e.src⟩, ⟨"node", e.tgt⟩, e.weight, e.partition_id⟩))

/-- Deserialize a batch of raw node records; one failing record fails the
whole batch, as a typed response take does in the source. -/
def deserNodes : List RawNode → Option (List SurrealNode)
  | [] => some []
  | r :: rs =>
      match deserNode r, deserNodes rs with
      | some sn, some sns => some (sn :: sns)
      | _, _ => none

/-- Modelled from the spec: the third get_neighbors query (single batched
fetch of all target node records, section 4.1 step 5), with whole-batch
deserialization surfacing a Storage error on any malformed record. -/
def engineFetchNodes (st : EngineState) (ts : List Thing) : Except GraphError (List SurrealNode) :=
  match deserNodes (ts.filterMap (fun t =>
      if t.tb == "node" then st.nodes.find? (fun r => r.key == t.id) else none)) with
  | none => .error (.Storage "missing field partition_id")
  | some sns => .ok sns

/-- Lookup in the Thing-keyed node map built by get_neighbors.  The source
builds a HashMap by insertion, so a later entry with the same key shadows an
earlier one; reversing before find? reproduces that. -/
def lookupThing (m : List (Thing × Node)) (t : Thing) : Option Node :=
  (m.reverse.find? (fun p => p.1 == t)).map Prod.snd

/-- get_neighbors from the source, instrumented with the number of engine
round trips issued: list outgoing relation identifiers (1 query), short
circuit when none; batch fetch relation records (2nd query), short circuit
when none resolved; batch fetch target nodes (3rd query); build the node
map and assemble pairs, silently dropping relations whose target is absent
from the map.  Edge.source is the method argument id, Edge.target the bare
target key, weight defaults to 1 and partition to "personal". -/
def getNeighborsT (st : EngineState) (id : String) :
    Except GraphError (List (Edge × Node)) × Nat :=
  match relationMapQ st id with
  | none => (.ok [], 1)
  | some m =>
      let things := (m.map Prod.snd).flatten
      if things.isEmpty then (.ok [], 1)
      else
        let rels := engineFetchRelations st things
        if rels.isEmpty then (.ok [], 2)
        else
          match engineFetchNodes st (rels.map (fun r => r.target)) with
          | .error e => (.error e, 3)
          | .ok sns =>
              let nodeMap := sns.map (fun sn => (sn.id, nodeFromSurreal sn))
              let pairs := rels.filterMap (fun r =>
                (lookupThing nodeMap r.target).map (fun tn =>
                  (({ source := id, target := r.target.id, relation := r.id.tb,
                      weight := r.weight.getD 1,
                      partition_id := r.partition_id.getD "personal" } : Edge), tn)))
              (.ok pairs, 3)

/-- The result component of get_neighbors. -/
def getNeighborsRes (st : EngineState) (id : String) :
    Except GraphError (List (Edge × Node)) :=
  (getNeighborsT st id).1

/-- query_by_partition from the source: the engine filters node records on
exact partition equality (an absent field matches nothing) and the matching
records deserialize into nodes. -/
def queryByPartition (st : EngineState) (p : String) : Except GraphError (List Node) :=
  .ok (st.nodes.filterMap (fun r =>
    match deserNode r with
    | none => none
    | some sn => if sn.partition_id = p then some (nodeFromSurreal sn) else none))

/-- Every node record of the state carries its partition field (the shape
every repository writer produces). -/
def WellFormed (st : EngineState) : Prop :=
  ∀ r ∈ st.nodes, r.partition_id.isSome = true

instance (st : EngineState) : Decidable (WellFormed st) := by
  unfold WellFormed; infer_instance

/-- Dot product of two vectors, truncating to the shorter length (no
dimensionality validation exists anywhere in the store). -/
def dotL (u v : List ℚ) : ℚ :=
  (List.zipWith (· * ·) u v).sum

/-- Modelled from the spec: the cosine-similarity score computed by the
engine for the search query (section 4.2).  The score is represented
exactly over the rationals through the strictly monotone transform
c to sgn(c) * c ^ 2, which preserves the ordering the engine sorts by and
agrees with the cosine at the values 0 and 1 that the claims mention; a
zero vector on either side scores 0. -/
def cosScore (u v : List ℚ) : ℚ :=
  if dotL u u = 0 ∨ dotL v v = 0 then 0
  else if dotL u v < 0 then -(dotL u v * dotL u v / (dotL u u * dotL v v))
  else dotL u v * dotL u v / (dotL u u * dotL v v)

/-- The descending-score order the engine sorts search rows by. -/
def scoreGe (a b : Thing × ℚ) : Prop := b.2 ≤ a.2

instance : DecidableRel scoreGe := fun a b => inferInstanceAs (Decidable (b.2 ≤ a.2))

instance : IsTotal (Thing × ℚ) scoreGe := ⟨fun a b => le_total b.2 a.2⟩

instance : IsTrans (Thing × ℚ) scoreGe := ⟨fun _ _ _ h h2 => le_trans h2 h⟩

/-- The rows the engine scores: one per node holding an embedding, pairing
the record identifier with the score of its embedding against the query.
Nodes without an embedding are excluded from candidacy. -/
def scoredRows (st : EngineState) (q : List ℚ) : List (Thing × ℚ) :=
  st.nodes.filterMap (fun r =>
    r.embedding.map (fun e => ((⟨"node", r.key⟩ : Thing), cosScore e q)))

/-- Modelled from the spec: the search query (section 4.2) — score every
node that has a stored embedding against the query vector, order by
descending score, and truncate to the limit server-side. -/
def engineSearch (st : EngineState) (q : List ℚ) (lim : Nat) : List (Thing × ℚ) :=
  (List.insertionSort scoreGe (scoredRows st q)).take lim

/-- search from the source: run the engine query and map each row to the
bare key of its Thing paired with the score. -/
def searchRes (st : EngineState) (q : List ℚ) (lim : Nat) :
    Except GraphError (List (String × ℚ)) :=
  .ok ((engineSearch st q lim).map (fun p => (p.1.id, p.2)))

/-- C1: add_node succeeds at every state, including states that already hold
a record at node.id (no uniqueness error, full-content overwrite), and a
subsequent get_node at node.id returns a node equal to the argument in id,
label, properties and partition_id. -/
theorem c1_addNode_overwrite_roundtrip (st : EngineState) (n : Node) :
    (addNode st n).2 = .ok () ∧ getNode (addNode st n).1 n.id = .ok n := by
  refine ⟨rfl, ?_⟩
  show getNode ⟨upsertRec n.id ⟨n.label, n.properties, n.partition_id⟩ st.nodes, st.edges⟩
        n.id = .ok n
  unfold getNode engineSelectNode
  simp only [upsertRec_find]
  rfl

/-- C4: update_node is the same operation as add_node — both perform a
full-content replace of the record at node.id, with identical success and
failure behaviour, on every state and node. -/
theorem c4_updateNode_eq_addNode (st : EngineState) (n : Node) :
    updateNode st n = addNode st n := rfl

/-- C5 counterexample: a record exists at q1 — so the claimed dichotomy
requires get_node to return the stored node — yet get_node answers with a
Storage error, because the record omits partition_id and fails
deserialization: neither the node nor NotFound. -/
theorem c5_counterexample :
    engineSelectNode ⟨[⟨"q1", "Doc", Json.null, none, none⟩], []⟩ "q1"
      = some ⟨"q1", "Doc", Json.null, none, none⟩
    ∧ getNode ⟨[⟨"q1", "Doc", Json.null, none, none⟩], []⟩ "q1"
      = .error (.Storage "missing field partition_id") :=
  ⟨rfl, rfl⟩

/-- C5 amended: get_node answers in exactly one of three ways — no record
at the id gives NotFound carrying exactly that id (never Storage); a record
carrying its partition field gives the stored node with the bare logical
key (the table qualifier of the backend identifier is stripped); a record
omitting partition_id gives a Storage deserialization error. -/
theorem c5_amended_getNode_trichotomy (st : EngineState) (id : String) :
    (engineSelectNode st id = none → getNode st id = .error (.NotFound id))
    ∧ (∀ r : RawNode, engineSelectNode st id = some r → ∀ p : String,
        r.partition_id = some p →
        getNode st id = .ok ⟨r.key, r.label, r.properties, p⟩)
    ∧ (∀ r : RawNode, engineSelectNode st id = some r → r.partition_id = none →
        getNode st id = .error (.Storage "missing field partition_id")) := by
  refine ⟨?_, ?_, ?_⟩
  · intro h; unfold getNode; rw [h]
  · intro r h p hp
    unfold getNode
    rw [h]
    simp [deserNode, hp, nodeFromSurreal]
  · intro r h hn
    unfold getNode
    rw [h]
    simp [deserNode, hn]

/-- Witness for C5 at concrete inputs: the empty store yields NotFound for
the requested id, a store holding a record under table-qualified key
node:p1 yields the node with bare id p1, and a record without its partition
field yields the Storage error. -/
theorem c5_witness :
    getNode ⟨[], []⟩ "missing" = .error (.NotFound "missing")
    ∧ getNode ⟨[⟨"p1", "Person", Json.null, some "personal", none⟩], []⟩ "p1"
        = .ok ⟨"p1", "Person", Json.null, "personal"⟩
    ∧ getNode ⟨[⟨"p9", "Person", Json.null, none, none⟩], []⟩ "p9"
        = .error (.Storage "missing field partition_id") :=
  ⟨(c5_amended_getNode_trichotomy ⟨[], []⟩ "missing").1 rfl,
   (c5_amended_getNode_trichotomy
      ⟨[⟨"p1", "Person", Json.null, some "personal", none⟩], []⟩ "p1").2.1
      ⟨"p1", "Person", Json.null, some "personal", none⟩ rfl "personal" rfl,
   (c5_amended_getNode_trichotomy
      ⟨[⟨"p9", "Person", Json.null, none, none⟩], []⟩ "p9").2.2
      ⟨"p9", "Person", Json.null, none, none⟩ rfl rfl⟩

/-- C3 counterexample: the edge with the empty relation name does not match
the spec regex (which requires one or more characters), yet add_edge accepts
it and sends it to storage — the character-wise test is vacuously true on
the empty string, whatever the alphanumeric predicate does, as the second
conjunct shows by instantiating it at the constant-false predicate. -/
theorem c3_counterexample :
    (addEdge ⟨"a", "b", "", 1, "personal"⟩).isOk = true
    ∧ (addEdgeWith (fun _ => false) ⟨"a", "b", "", 1, "personal"⟩).isOk = true
    ∧ matchesSpecRelationRegexPlus "" = false :=
  ⟨rfl, rfl, rfl⟩

theorem addEdgeWith_isOk_eq (f : Char → Bool) (e : Edge) :
    (addEdgeWith f e).isOk = e.relation.data.all (fun c => f c || c == '_') := by
  unfold addEdgeWith
  by_cases h : e.relation.data.all (fun c => f c || c == '_')
  · simp [h, Except.isOk, Except.toBool]
  · simp [h, Except.isOk, Except.toBool]

theorem string_ne_empty_data {s : String} (h : s ≠ "") : s.data.isEmpty = false := by
  cases s with
  | mk l =>
      cases l with
      | nil => exact absurd rfl h
      | cons c cs => rfl

theorem list_all_congr {α : Type} {p q : α → Bool} {l : List α}
    (h : ∀ a ∈ l, p a = q a) : l.all p = l.all q := by
  induction l with
  | nil => rfl
  | cons a l ih =>
      rw [List.all_cons, List.all_cons, h a (List.mem_cons_self a l),
        ih (fun b hb => h b (List.mem_cons_of_mem a hb))]

/-- C3 amended: for every character predicate agreeing with [A-Za-z0-9] on
the ASCII range — Rust char::is_alphanumeric is such a predicate — and every
edge whose relation consists of ASCII characters, add_edge fails before any
backend call, with a Storage error carrying the offending relation name,
exactly when the relation does not match the star form of the regex (zero
or more characters from the class); for every non-empty such relation this
coincides with the original one-or-more regex of the spec. -/
theorem c3_amended_validation (f : Char → Bool) (hf : ModelsRustAlphanumeric f)
    (e : Edge) (hascii : ∀ c ∈ e.relation.data, c.toNat < 128) :
    ((addEdgeWith f e).isOk = matchesSpecRelationRegexStar e.relation)
    ∧ ((addEdgeWith f e).isOk = false →
        addEdgeWith f e = .error (.Storage ("Invalid relation name: " ++ e.relation)))
    ∧ (e.relation ≠ "" →
        (addEdgeWith f e).isOk = matchesSpecRelationRegexPlus e.relation) := by
  have hstar : (addEdgeWith f e).isOk = matchesSpecRelationRegexStar e.relation := by
    rw [addEdgeWith_isOk_eq]
    unfold matchesSpecRelationRegexStar
    exact list_all_congr (fun c hc => by rw [hf c (hascii c hc)])
  refine ⟨hstar, ?_, ?_⟩
  · intro h
    unfold addEdgeWith
    rw [addEdgeWith_isOk_eq] at h
    rw [h]
    rfl
  · intro hne
    rw [hstar]
    unfold matchesSpecRelationRegexPlus matchesSpecRelationRegexStar
    rw [string_ne_empty_data hne]
    rfl

/-- Witness for C3: the ASCII fragment itself models Rust is_alphanumeric
on ASCII, and at a concrete all-ASCII non-empty relation the validation
outcome coincides with the spec regex. -/
theorem c3_witness :
    ModelsRustAlphanumeric charIsAlnumAscii
    ∧ (∀ c ∈ ("knows" : String).data, c.toNat < 128)
    ∧ ("knows" : String) ≠ ""
    ∧ (addEdgeWith charIsAlnumAscii ⟨"p1", "p2", "knows", 1, "personal"⟩).isOk
        = matchesSpecRelationRegexPlus "knows" :=
  ⟨fun _ _ => rfl, by decide, by decide,
   (c3_amended_validation charIsAlnumAscii (fun _ _ => rfl)
      ⟨"p1", "p2", "knows", 1, "personal"⟩ (by decide)).2.2 (by decide)⟩

/-- C10: the local pre-backend validation of add_edge inspects only the
relation field — two edges with the same relation string are either both
rejected before any backend call or both sent — and when an edge is sent,
the query text interpolates source, relation and target verbatim. -/
theorem c10_validation_depends_only_on_relation :
    (∀ e1 e2 : Edge, e1.relation = e2.relation →
      (addEdge e1).isOk = (addEdge e2).isOk)
    ∧ (∀ (e : Edge) (r : AddEdgeReq), addEdge e = .ok r →
        r.sql = "RELATE node:" ++ e.source ++ "->" ++ e.relation ++ "->node:"
          ++ e.target ++ " SET weight = $weight, partition_id = $partition") := by
  constructor
  · intro e1 e2 h
    unfold addEdge addEdgeWith
    rw [h]
    split <;> rfl
  · intro e r h
    unfold addEdge addEdgeWith at h
    split at h
    · cases h; rfl
    · cases h

/-- Witness for C10 at concrete edges sharing a relation but differing in
every other field, plus the interpolated query text of one of them. -/
theorem c10_witness :
    (addEdge ⟨"p1", "p2", "knows", 1, "personal"⟩).isOk
      = (addEdge ⟨"x; DROP", "y; DROP", "knows", 5, "work"⟩).isOk
    ∧ (addEdge ⟨"p1", "p2", "knows", 1, "personal"⟩).isOk = true :=
  ⟨c10_validation_depends_only_on_relation.1
      ⟨"p1", "p2", "knows", 1, "personal"⟩ ⟨"x; DROP", "y; DROP", "knows", 5, "work"⟩ rfl,
   rfl⟩

/-- C2: get_neighbors issues at most 3 engine round trips whatever the
neighbor count, and when the initial listing yields no relation identifiers
it returns the empty list after that single round trip (zero additional
backend round trips). -/
theorem c2_getNeighbors_round_trips (st : EngineState) (id : String) :
    (getNeighborsT st id).2 ≤ 3
    ∧ (listedThings st id = [] → getNeighborsT st id = (.ok [], 1)) := by
  constructor
  · unfold getNeighborsT
    cases h : relationMapQ st id with
    | none => simp
    | some m =>
        simp only []
        by_cases he : ((m.map Prod.snd).flatten).isEmpty
        · simp [he]
        · simp only [he, if_false]
          by_cases hr : (engineFetchRelations st ((m.map Prod.snd).flatten)).isEmpty
          · simp [hr]
          · simp only [hr, if_false]
            cases engineFetchNodes st
              ((engineFetchRelations st ((m.map Prod.snd).flatten)).map
                (fun r => r.target)) <;> simp
  · intro hl
    unfold listedThings at hl
    unfold getNeighborsT
    cases h : relationMapQ st id with
    | none => rfl
    | some m =>
        rw [h] at hl
        simp only [hl] at *
        simp [hl]

/-- Witness for C2 at a concrete store whose node has no outgoing
relations: the listing is empty and get_neighbors answers with one round
trip. -/
theorem c2_witness :
    listedThings ⟨[⟨"p1", "Person", Json.null, some "personal", none⟩], []⟩ "p1" = []
    ∧ getNeighborsT ⟨[⟨"p1", "Person", Json.null, some "personal", none⟩], []⟩ "p1"
        = (.ok [], 1) :=
  ⟨rfl, (c2_getNeighbors_round_trips
      ⟨[⟨"p1", "Person", Json.null, some "personal", none⟩], []⟩ "p1").2 rfl⟩

theorem deserNodes_ok {l : List RawNode} (h : ∀ r ∈ l, r.partition_id.isSome = true) :
    ∃ sns, deserNodes l = some sns ∧ ∀ sn ∈ sns, ∃ r ∈ l, deserNode r = some sn := by
  induction l with
  | nil => exact ⟨[], rfl, by simp⟩
  | cons r rs ih =>
      obtain ⟨p, hp⟩ : ∃ p, r.partition_id = some p := by
        have hr := h r (List.mem_cons_self r rs)
        cases hq : r.partition_id with
        | none => rw [hq] at hr; simp at hr
        | some p => exact ⟨p, rfl⟩
      obtain ⟨sns, hsns, hmem⟩ := ih (fun x hx => h x (List.mem_cons_of_mem r hx))
      refine ⟨⟨⟨"node", r.key⟩, r.label, r.properties, p⟩ :: sns, ?_, ?_⟩
      · simp [deserNodes, deserNode, hp, hsns]
      · intro sn hsn
        rcases List.mem_cons.mp hsn with heq | hmem2
        · exact ⟨r, List.mem_cons_self r rs, by simp [deserNode, hp, heq]⟩
        · obtain ⟨x, hx1, hx2⟩ := hmem sn hmem2
          exact ⟨x, List.mem_cons_of_mem r hx1, hx2⟩

theorem engineFetchNodes_ok (st : EngineState) (ts : List Thing)
    (hwf : WellFormed st) :
    ∃ sns, engineFetchNodes st ts = .ok sns
      ∧ ∀ sn ∈ sns, ∃ raw ∈ st.nodes, deserNode raw = some sn := by
  have hsub : ∀ r ∈ ts.filterMap (fun t =>
      if t.tb == "node" then st.nodes.find? (fun x => x.key == t.id) else none),
      r ∈ st.nodes := by
    intro r hr
    rcases List.mem_filterMap.mp hr with ⟨t, _, ht⟩
    split at ht
    · exact List.mem_of_find?_eq_some ht
    · cases ht
  obtain ⟨sns, h1, h2⟩ := deserNodes_ok (fun r hr => hwf r (hsub r hr))
  refine ⟨sns, ?_, ?_⟩
  · unfold engineFetchNodes
    rw [h1]
  · intro sn hsn
    obtain ⟨r, hm, hd⟩ := h2 sn hsn
    exact ⟨r, hsub r hm, hd⟩

theorem deserNode_id {raw : RawNode} {sn : SurrealNode}
    (h : deserNode raw = some sn) : sn.id = ⟨"node", raw.key⟩ := by
  unfold deserNode at h
  cases hq : raw.partition_id with
  | none => rw [hq] at h; cases h
  | some p => rw [hq] at h; cases h; rfl

theorem lookupThing_mem {m : List (Thing × Node)} {t : Thing} {n : Node}
    (h : lookupThing m t = some n) : (t, n) ∈ m := by
  unfold lookupThing at h
  cases hf : m.reverse.find? (fun p => p.1 == t) with
  | none => rw [hf] at h; cases h
  | some q =>
      rw [hf] at h
      cases h
      have hq1 : q.1 = t := by
        have := List.find?_some hf
        simpa using this
      have hq2 : q ∈ m := List.mem_reverse.mp (List.mem_of_find?_eq_some hf)
      have : q = (t, q.2) := by
        cases q; simp_all
      rw [← this]
      exact hq2

/-- C6: for every well-formed store (all node records carry their partition
field; relation records may dangle), get_neighbors returns a result rather
than an error, and every returned pair's edge target is the key of a node
record actually present in the store — a relation whose target record is
absent from the batch-fetched node map is silently dropped. -/
theorem c6_dangling_targets_dropped (st : EngineState) (id : String)
    (hwf : WellFormed st) :
    ∃ l, getNeighborsRes st id = .ok l
      ∧ ∀ p ∈ l, ∃ raw ∈ st.nodes, raw.key = p.1.target := by
  unfold getNeighborsRes getNeighborsT
  cases h : relationMapQ st id with
  | none => exact ⟨[], rfl, by simp⟩
  | some m =>
      simp only []
      by_cases he : ((m.map Prod.snd).flatten).isEmpty
      · simp only [he, if_true]
        exact ⟨[], rfl, by simp⟩
      · simp only [he, if_false]
        by_cases hr : (engineFetchRelations st ((m.map Prod.snd).flatten)).isEmpty
        · simp only [hr, if_true]
          exact ⟨[], rfl, by simp⟩
        · simp only [hr, if_false]
          obtain ⟨sns, hok, hmem⟩ := engineFetchNodes_ok st
            ((engineFetchRelations st ((m.map Prod.snd).flatten)).map
              (fun r => r.target)) hwf
          rw [hok]
          refine ⟨_, rfl, ?_⟩
          intro p hp
          rcases List.mem_filterMap.mp hp with ⟨rel, _, hf⟩
          rcases Option.map_eq_some'.mp hf with ⟨tn, hlk, hpe⟩
          obtain ⟨sn, hsn, hsnid, _⟩ : ∃ sn ∈ sns, sn.id = rel.target
              ∧ tn = nodeFromSurreal sn := by
            have := lookupThing_mem hlk
            rcases List.mem_map.mp this with ⟨sn, hsn, heq⟩
            exact ⟨sn, hsn, congrArg Prod.fst heq, (congrArg Prod.snd heq).symm⟩
          obtain ⟨raw, hraw, hdes⟩ := hmem sn hsn
          refine ⟨raw, hraw, ?_⟩
          have hid : sn.id = ⟨"node", raw.key⟩ := deserNode_id hdes
          rw [← hpe]
          show raw.key = rel.target.id
          rw [← hsnid, hid]

/-- Witness for C6 at a concrete well-formed store holding one resolvable
relation and one dangling relation. -/
theorem c6_witness :
    WellFormed ⟨[⟨"p1", "Person", Json.null, some "personal", none⟩,
                 ⟨"p2", "Person", Json.null, some "work", none⟩],
                [⟨"knows", "e1", "p1", "p2", some 1, some "personal"⟩,
                 ⟨"knows", "e2", "p1", "ghost", none, none⟩]⟩
    ∧ ∃ l, getNeighborsRes ⟨[⟨"p1", "Person", Json.null, some "personal", none⟩,
                 ⟨"p2", "Person", Json.null, some "work", none⟩],
                [⟨"knows", "e1", "p1", "p2", some 1, some "personal"⟩,
                 ⟨"knows", "e2", "p1", "ghost", none, none⟩]⟩ "p1" = .ok l
        ∧ ∀ p ∈ l, ∃ raw ∈ (⟨[⟨"p1", "Person", Json.null, some "personal", none⟩,
                 ⟨"p2", "Person", Json.null, some "work", none⟩],
                [⟨"knows", "e1", "p1", "p2", some 1, some "personal"⟩,
                 ⟨"knows", "e2", "p1", "ghost", none, none⟩]⟩ : EngineState).nodes,
            raw.key = p.1.target :=
  ⟨by decide,
   c6_dangling_targets_dropped _ "p1" (by decide)⟩

/-- C9 counterexample: a backend node record that omits partition_id is not
reconstructed with the default "personal" — get_node on it fails with a
Storage (deserialization) error instead of returning any node. -/
theorem c9_counterexample :
    getNode ⟨[⟨"n1", "Person", Json.null, none, none⟩], []⟩ "n1"
      = .error (.Storage "missing field partition_id") := rfl

/-- C9 amended: no "personal" default exists for node records.  A fetched
node record that omits partition_id makes get_node fail with a Storage
error, and query_by_partition returns only nodes whose stored partition
equals the argument, so an omitted field is never defaulted into a result.
(The "personal" default belongs to relation records: get_neighbors defaults
a missing edge partition, not a missing node partition.) -/
theorem c9_amended_no_node_default :
    (∀ (st : EngineState) (id : String) (r : RawNode),
        engineSelectNode st id = some r → r.partition_id = none →
        getNode st id = .error (.Storage "missing field partition_id"))
    ∧ (∀ (st : EngineState) (p : String) (l : List Node),
        queryByPartition st p = .ok l → ∀ n ∈ l, n.partition_id = p) := by
  constructor
  · intro st id r hsel hnone
    unfold getNode
    rw [hsel]
    simp [deserNode, hnone]
  · intro st p l hl n hn
    unfold queryByPartition at hl
    cases hl
    rcases List.mem_filterMap.mp hn with ⟨r, _, hr⟩
    cases hd : deserNode r with
    | none => rw [hd] at hr; cases hr
    | some sn =>
        rw [hd] at hr
        have hr2 : (if sn.partition_id = p then some (nodeFromSurreal sn) else none)
            = some n := hr
        by_cases hps : sn.partition_id = p
        · rw [if_pos hps] at hr2
          cases hr2
          exact hps
        · rw [if_neg hps] at hr2
          cases hr2

/-- Witness for C9 at a concrete record without a partition field and a
concrete partition query. -/
theorem c9_witness :
    getNode ⟨[⟨"w1", "Doc", Json.null, none, none⟩], []⟩ "w1"
      = .error (.Storage "missing field partition_id")
    ∧ (⟨"w1", "Doc", Json.null, "work"⟩ : Node).partition_id = "work" :=
  ⟨c9_amended_no_node_default.1 ⟨[⟨"w1", "Doc", Json.null, none, none⟩], []⟩ "w1"
      ⟨"w1", "Doc", Json.null, none, none⟩ rfl rfl,
   c9_amended_no_node_default.2 ⟨[⟨"w1", "Doc", Json.null, some "work", none⟩], []⟩
      "work" [⟨"w1", "Doc", Json.null, "work"⟩] (by simp [queryByPartition, deserNode, nodeFromSurreal])
      ⟨"w1", "Doc", Json.null, "work"⟩ (List.mem_singleton.mpr rfl)⟩

/-- C7: search returns at most the limit, in non-increasing score order,
and only node ids that hold a stored embedding. -/
theorem c7_search_sorted_limited_embedded (st : EngineState) (q : List ℚ) (k : Nat) :
    ∃ l, searchRes st q k = .ok l
      ∧ l.length ≤ k
      ∧ l.Pairwise (fun a b => b.2 ≤ a.2)
      ∧ ∀ p ∈ l, ∃ raw ∈ st.nodes, raw.key = p.1 ∧ raw.embedding.isSome = true := by
  refine ⟨_, rfl, ?_, ?_, ?_⟩
  · simp only [engineSearch, List.length_map, List.length_take]
    exact min_le_left _ _
  · have hs : (List.insertionSort scoreGe (scoredRows st q)).Pairwise scoreGe :=
      List.sorted_insertionSort scoreGe (scoredRows st q)
    have ht : ((List.insertionSort scoreGe (scoredRows st q)).take k).Pairwise scoreGe :=
      hs.sublist (List.take_sublist k _)
    rw [List.pairwise_map]
    exact ht.imp (fun h => h)
  · intro p hp
    rcases List.mem_map.mp hp with ⟨x, hx, hxe⟩
    have hx2 : x ∈ List.insertionSort scoreGe (scoredRows st q) :=
      (List.take_sublist k _).subset hx
    have hx3 : x ∈ scoredRows st q :=
      (List.perm_insertionSort scoreGe (scoredRows st q)).subset hx2
    rcases List.mem_filterMap.mp hx3 with ⟨raw, hraw, hmap⟩
    rcases Option.map_eq_some'.mp hmap with ⟨e, he, hxe2⟩
    refine ⟨raw, hraw, ?_, ?_⟩
    · rw [← hxe, ← hxe2]
    · rw [he]; rfl

/-- Witness for C7 at a concrete store with one embedded and one
non-embedded node. -/
theorem c7_witness :
    ∃ l, searchRes ⟨[⟨"d1", "Doc", Json.null, some "personal", some [1, 0]⟩,
                     ⟨"d2", "Doc", Json.null, some "personal", none⟩], []⟩ [1, 0] 3 = .ok l
      ∧ l.length ≤ 3
      ∧ l.Pairwise (fun a b => b.2 ≤ a.2)
      ∧ ∀ p ∈ l, ∃ raw ∈ (⟨[⟨"d1", "Doc", Json.null, some "personal", some [1, 0]⟩,
                     ⟨"d2", "Doc", Json.null, some "personal", none⟩], []⟩ : EngineState).nodes,
          raw.key = p.1 ∧ raw.embedding.isSome = true :=
  c7_search_sorted_limited_embedded _ [1, 0] 3

theorem dotL_nil_left (v : List ℚ) : dotL [] v = 0 := rfl

theorem dotL_nil_right (u : List ℚ) : dotL u [] = 0 := by
  cases u <;> rfl

theorem dotL_cons (a b : ℚ) (u v : List ℚ) :
    dotL (a :: u) (b :: v) = a * b + dotL u v := by
  simp [dotL]

theorem dotL_self_nonneg (v : List ℚ) : 0 ≤ dotL v v := by
  induction v with
  | nil => exact le_refl 0
  | cons a u ih =>
      rw [dotL_cons]
      nlinarith [sq_nonneg a]

theorem dotL_eq_zero_of_self_eq_zero {u : List ℚ} (h : dotL u u = 0) (v : List ℚ) :
    dotL u v = 0 := by
  induction u generalizing v with
  | nil => rfl
  | cons a u ih =>
      rw [dotL_cons] at h
      have hu : 0 ≤ dotL u u := dotL_self_nonneg u
      have ha : a * a = 0 := by nlinarith [sq_nonneg a]
      have ha0 : a = 0 := by
        rcases mul_self_eq_zero.mp ha with h0
        exact h0
      have huu : dotL u u = 0 := by nlinarith [sq_nonneg a]
      cases v with
      | nil => exact dotL_nil_right _
      | cons b w =>
          rw [dotL_cons, ha0, ih huu w]
          ring

theorem dotL_cauchy_schwarz (u v : List ℚ) :
    dotL u v * dotL u v ≤ dotL u u * dotL v v := by
  induction u generalizing v with
  | nil =>
      rw [dotL_nil_left, dotL_nil_left]
      simp
  | cons a u ih =>
      cases v with
      | nil =>
          rw [dotL_nil_right, dotL_nil_right]
          simp
      | cons b w =>
          rw [dotL_cons, dotL_cons, dotL_cons]
          rcases eq_or_lt_of_le (dotL_self_nonneg u) with hz | hpos
          · have hd : dotL u w = 0 := dotL_eq_zero_of_self_eq_zero hz.symm w
            have hw : 0 ≤ dotL w w := dotL_self_nonneg w
            rw [hd, ← hz]
            nlinarith [sq_nonneg a, sq_nonneg b, sq_nonneg (a * b)]
          · have hih := ih w
            have hw : 0 ≤ dotL w w := dotL_self_nonneg w
            nlinarith [hih, sq_nonneg (a * dotL u w - b * dotL u u), hpos,
              mul_nonneg (sq_nonneg a) (sub_nonneg.mpr hih)]

theorem cosScore_le_one (u v : List ℚ) : cosScore u v ≤ 1 := by
  unfold cosScore
  split
  · exact zero_le_one
  · rename_i hz
    push_neg at hz
    have hu : 0 < dotL u u := lt_of_le_of_ne (dotL_self_nonneg u) (Ne.symm hz.1)
    have hv : 0 < dotL v v := lt_of_le_of_ne (dotL_self_nonneg v) (Ne.symm hz.2)
    have hm : 0 < dotL u u * dotL v v := mul_pos hu hv
    split
    · have : 0 ≤ dotL u v * dotL u v / (dotL u u * dotL v v) :=
        div_nonneg (mul_self_nonneg _) hm.le
      linarith
    · rw [div_le_one hm]
      exact dotL_cauchy_schwarz u v

theorem cosScore_self_eq_one {v : List ℚ} (hv : dotL v v ≠ 0) :
    cosScore v v = 1 := by
  unfold cosScore
  have hpos : 0 < dotL v v := lt_of_le_of_ne (dotL_self_nonneg v) (Ne.symm hv)
  rw [if_neg (by push_neg; exact ⟨hv, hv⟩), if_neg (not_lt.mpr hpos.le)]
  exact div_self (ne_of_gt (mul_pos hpos hpos))

theorem insertionSort_head_unique_max {l : List (Thing × ℚ)} {x : Thing × ℚ}
    (hx : x ∈ l) (hmax : ∀ y ∈ l, y.2 ≤ x.2)
    (huniq : ∀ y ∈ l, y.2 = x.2 → y = x) :
    (List.insertionSort scoreGe l).head? = some x := by
  have hperm := List.perm_insertionSort scoreGe l
  have hsort : (List.insertionSort scoreGe l).Pairwise scoreGe :=
    List.sorted_insertionSort scoreGe l
  cases hs : List.insertionSort scoreGe l with
  | nil =>
      exfalso
      have : x ∈ List.insertionSort scoreGe l := hperm.mem_iff.mpr hx
      rw [hs] at this
      cases this
  | cons h t =>
      have hh : h ∈ l := hperm.subset (by rw [hs]; exact List.mem_cons_self h t)
      have hx2 : x ∈ h :: t := by
        rw [← hs]
        exact hperm.mem_iff.mpr hx
      rcases List.mem_cons.mp hx2 with heq | hxt
      · rw [heq]
        rfl
      · rw [hs] at hsort
        have hle : x.2 ≤ h.2 := (List.pairwise_cons.mp hsort).1 x hxt
        have h2 : h.2 = x.2 := le_antisymm (hmax h hh) hle
        rw [huniq h hh h2]
        rfl

theorem head?_take {α : Type} {k : Nat} (hk : k ≠ 0) (l : List α) :
    (l.take k).head? = l.head? := by
  cases k with
  | zero => exact absurd rfl hk
  | succ k => cases l <;> rfl

theorem head?_map {α β : Type} (f : α → β) (l : List α) :
    (l.map f).head? = l.head?.map f := by
  cases l <;> rfl

/-- C8 counterexample: the claim quantifies over every node whose stored
embedding is exactly the query vector, but with two such nodes only one can
come first.  Here node b has embedding exactly [1] and the query is [1]
with limit 1, yet the first (and only) returned pair names node a. -/
theorem c8_counterexample :
    (⟨"b", "D", Json.null, some "personal", some [1]⟩ : RawNode) ∈
      (⟨[⟨"a", "D", Json.null, some "personal", some [1]⟩,
         ⟨"b", "D", Json.null, some "personal", some [1]⟩], []⟩ : EngineState).nodes
    ∧ searchRes ⟨[⟨"a", "D", Json.null, some "personal", some [1]⟩,
         ⟨"b", "D", Json.null, some "personal", some [1]⟩], []⟩ [1] 1
        = .ok [("a", 1)]
    ∧ ("a" : String) ≠ "b" := by
  refine ⟨by simp, ?_, by decide⟩
  simp [searchRes, engineSearch, scoredRows, cosScore, dotL, scoreGe,
        List.insertionSort, List.orderedInsert]

/-- C8 amended: on a store containing a node with embedding exactly the
non-zero query vector, when no other embedded node scores exactly 1 against
the query, search with limit at least 1 returns that node first, with a
score within 1/1000 of 1. -/
theorem c8_amended_exact_match_first (st : EngineState) (v : List ℚ) (k : Nat)
    (n : RawNode) (hn : n ∈ st.nodes) (hemb : n.embedding = some v)
    (hv : dotL v v ≠ 0) (hk : 1 ≤ k)
    (huniq : ∀ m ∈ st.nodes, ∀ e : List ℚ, m.embedding = some e →
      cosScore e v = 1 → m.key = n.key) :
    ∃ l s, searchRes st v k = .ok l ∧ l.head? = some (n.key, s)
      ∧ |s - 1| ≤ 1 / 1000 := by
  have hx : ((⟨"node", n.key⟩ : Thing), (1 : ℚ)) ∈ scoredRows st v := by
    apply List.mem_filterMap.mpr
    refine ⟨n, hn, ?_⟩
    rw [hemb]
    simp [cosScore_self_eq_one hv]
  have hmax : ∀ y ∈ scoredRows st v, y.2 ≤ ((⟨"node", n.key⟩ : Thing), (1 : ℚ)).2 := by
    intro y hy
    rcases List.mem_filterMap.mp hy with ⟨m, _, hmap⟩
    rcases Option.map_eq_some'.mp hmap with ⟨e, _, heq⟩
    rw [← heq]
    exact cosScore_le_one e v
  have huniq2 : ∀ y ∈ scoredRows st v,
      y.2 = ((⟨"node", n.key⟩ : Thing), (1 : ℚ)).2 → y = ((⟨"node", n.key⟩ : Thing), (1 : ℚ)) := by
    intro y hy h1
    rcases List.mem_filterMap.mp hy with ⟨m, hm, hmap⟩
    rcases Option.map_eq_some'.mp hmap with ⟨e, he, heq⟩
    have hsc : cosScore e v = 1 := by
      rw [← heq] at h1
      exact h1
    have hkey : m.key = n.key := huniq m hm e he hsc
    rw [← heq, hkey, hsc]
  have hhead := insertionSort_head_unique_max hx hmax huniq2
  refine ⟨_, 1, rfl, ?_, by norm_num⟩
  show ((engineSearch st v k).map (fun p => (p.1.id, p.2))).head? = some (n.key, 1)
  rw [head?_map]
  unfold engineSearch
  rw [head?_take (by omega) _, hhead]
  rfl

/-- Witness for C8 at a concrete two-node store where only one embedded
node scores 1 against the query. -/
theorem c8_witness :
    ∃ l s, searchRes ⟨[⟨"n1", "Doc", Json.null, some "personal", some [1, 0]⟩,
                       ⟨"n2", "Doc", Json.null, some "personal", some [0, 1]⟩], []⟩
        [1, 0] 2 = .ok l
      ∧ l.head? = some ("n1", s) ∧ |s - 1| ≤ 1 / 1000 :=
  c8_amended_exact_match_first
    ⟨[⟨"n1", "Doc", Json.null, some "personal", some [1, 0]⟩,
      ⟨"n2", "Doc", Json.null, some "personal", some [0, 1]⟩], []⟩
    [1, 0] 2 ⟨"n1", "Doc", Json.null, some "personal", some [1, 0]⟩
    (by simp) rfl (by norm_num [dotL]) (by norm_num)
    (by
      intro m hm e he hsc
      simp only [List.mem_cons, List.not_mem_nil, or_false] at hm
      rcases hm with hm | hm
      · rw [hm]
      · rw [hm] at he
        simp at he
        rw [← he] at hsc
        norm_num [cosScore, dotL] at hsc)

end RobertGraph
